import Mathlib

/-!
# Verification of `signal-future` (src/src/lib.rs)

A shallow embedding of the one-shot signal future primitive.

The Rust source guards one shared record
`State<T> { value: Option<T>, waker: Option<Waker> }` behind
`Arc<Mutex<..>>`.  The two operations are:

* `SignalFutureController::signal(value)` — lock; `value = Some(value)`;
  `if let Some(w) = waker.take() { w.wake() }`; unlock at end of scope.
* `<SignalFuture as Future>::poll(cx)` — lock; if `value.take()` is
  `Some(v)` return `Ready(v)`, else `waker = Some(cx.waker().clone())`
  and return `Pending`; unlock at end of scope.

We model the shared state as a plain record, the opaque `Waker` handles
as natural-number identifiers, and each operation as a function from the
pre-state (as seen at lock acquisition) to the post-state (as left at
lock release) together with the list of wakers it wakes.  The mutex
makes each operation atomic, so between-operation states are exactly
the observable states.
-/

namespace SignalFut

/-- Opaque continuation handles (`std::task::Waker`), modelled as ids. -/
abbrev Waker : Type := Nat

/-- The shared record, from `struct State<T> { value, waker }`. -/
structure State (T : Type) where
  value : Option T
  waker : Option Waker
deriving DecidableEq

/-- The poll result type, from `std::task::Poll`. -/
inductive Poll (T : Type) where
  | Ready (v : T)
  | Pending
deriving DecidableEq

/-- The operation `SignalFutureController::signal`: store `Some(value)` into `value`,
then take the waker and wake it if present.  Returns the post-state and
the list of wakers woken by this call. -/
def SignalFutureController.signal {T : Type} (s : State T) (v : T) : State T × List Waker :=
  let afterWrite : State T := ⟨some v, s.waker⟩
  match afterWrite.waker with
  | some w => (⟨afterWrite.value, none⟩, [w])
  | none => (afterWrite, [])

/-- The operation `<SignalFuture as Future>::poll`: if `value.take()` yields `Some(v)`
return `Ready(v)` (the waker field is untouched in this branch), else
store the caller's waker and return `Pending`.  Returns the post-state,
the poll result, and the list of wakers woken by this call (none: the
source `poll` never calls `wake`). -/
def SignalFuture.poll {T : Type} (s : State T) (cx : Waker) : State T × Poll T × List Waker :=
  match s.value with
  | some v => (⟨none, s.waker⟩, Poll.Ready v, [])
  | none => (⟨none, some cx⟩, Poll.Pending, [])

/-- The constructor `SignalFuture::new`.  The Rust signature is
`pub fn new() -> (SignalFuture, SignalFutureController)` inside
`impl<T> SignalFuture<T>`; the bare names in the return type elaborate
with the declared default parameter `T = ()`, so for every `T` the
constructor returns handles over a `State<()>`, initialised with
`value: None, waker: None`.  Both returned handles share that one
state, so we model the construction by the single shared state it
creates. -/
def SignalFuture.new (T : Type) : State Unit := ⟨none, none⟩

/-- The operations an owner of the pair can perform on the shared state. -/
inductive Op (T : Type) where
  | signal (v : T)
  | poll (cx : Waker)

/-- The wakers woken by one operation run from state `s`. -/
def stepWakes {T : Type} (s : State T) : Op T → List Waker
  | Op.signal v => (SignalFutureController.signal s v).2
  | Op.poll cx => (SignalFuture.poll s cx).2.2

/-- States reachable from the freshly constructed shared state by any
sequence of `signal` and `poll` operations. -/
inductive Reachable {T : Type} : State T → Prop where
  | init : Reachable ⟨none, none⟩
  | signal (s : State T) (v : T) : Reachable s →
      Reachable (SignalFutureController.signal s v).1
  | poll (s : State T) (cx : Waker) : Reachable s →
      Reachable (SignalFuture.poll s cx).1

/-- Micro-events of one `signal` call, in program order.  `acquire` is
`self.shared_state.lock()`, `writeValue` the assignment to `value`,
`takeWaker` the `waker.take()`, `wake w` the `w.wake()` call, and
`release` the drop of the mutex guard at the end of the function body. -/
inductive LockEvent where
  | acquire
  | writeValue
  | takeWaker
  | wake (w : Waker)
  | release
deriving DecidableEq

/-- The sequence of micro-events performed by `signal` from state `s`:
the guard is dropped at the end of the Rust function body, after the
conditional `wake` call. -/
def signalEvents {T : Type} (s : State T) (v : T) : List LockEvent :=
  [LockEvent.acquire, LockEvent.writeValue, LockEvent.takeWaker]
    ++ (match s.waker with
        | some w => [LockEvent.wake w]
        | none => [])
    ++ [LockEvent.release]

/-- Discriminates `wake` events. -/
def LockEvent.isWake : LockEvent → Bool
  | LockEvent.wake _ => true
  | _ => false

/-- Every `wake` event in the trace is preceded by a `release` event:
the formalisation of "the wake occurs only after the lock has been
released". -/
def wakeOnlyAfterRelease (es : List LockEvent) : Prop :=
  ∀ i : Fin es.length, (es.get i).isWake = true →
    ∃ j : Fin es.length, (j : Nat) < (i : Nat) ∧ es.get j = LockEvent.release

instance (es : List LockEvent) : Decidable (wakeOnlyAfterRelease es) := by
  unfold wakeOnlyAfterRelease
  infer_instance

/-- Repeated polls: fold `poll` over a list of caller wakers, keeping
only the evolving shared state. -/
def pollSeq {T : Type} (s : State T) (ws : List Waker) : State T :=
  ws.foldl (fun t w => (SignalFuture.poll t w).1) s

/-- Helper: a poll sequence started with no payload present never makes
a payload appear. -/
theorem pollSeq_value_none {T : Type} (ws : List Waker) (s : State T)
    (h : s.value = none) : (pollSeq s ws).value = none := by
  induction ws generalizing s with
  | nil => simpa [pollSeq] using h
  | cons w ws ih =>
      have : (SignalFuture.poll s w).1.value = none := by
        simp [SignalFuture.poll, h]
      simpa [pollSeq, List.foldl_cons] using ih _ this

/-- Helper: in every reachable state, the waker slot is empty or the
payload slot is empty. -/
theorem reachable_waker_or_value {T : Type} (s : State T) (hr : Reachable s) :
    s.waker = none ∨ s.value = none := by
  induction hr with
  | init => exact Or.inr rfl
  | signal s v _ _ =>
      left
      cases h : s.waker <;> simp [SignalFutureController.signal, h]
  | poll s cx _ _ =>
      right
      cases h : s.value <;> simp [SignalFuture.poll, h]

/-- C1: for every value `v`, if the future is polled first while no
payload is present (the poll stores the caller's waker and returns
`Pending`) and `signal v` is then called, the stored waker is woken
exactly once (the wake list of that signal call is exactly `[w]`) and
the next poll returns `Ready v`. -/
theorem poll_then_signal_wakes_once_and_yields {T : Type} (s : State T) (v : T)
    (w w2 : Waker) (h : s.value = none) :
    (SignalFuture.poll s w).2.1 = Poll.Pending ∧
    (SignalFuture.poll s w).1.waker = some w ∧
    (SignalFutureController.signal (SignalFuture.poll s w).1 v).2 = [w] ∧
    (SignalFuture.poll (SignalFutureController.signal (SignalFuture.poll s w).1 v).1 w2).2.1
      = Poll.Ready v := by
  simp [SignalFuture.poll, SignalFutureController.signal, h]

/-- Witness for C1 at the freshly constructed state with `v = 7`. -/
theorem poll_then_signal_wakes_once_and_yields_witness :
    ((⟨none, none⟩ : State Nat).value = none) ∧
    (SignalFuture.poll (⟨none, none⟩ : State Nat) 0).2.1 = Poll.Pending ∧
    (SignalFuture.poll (⟨none, none⟩ : State Nat) 0).1.waker = some 0 ∧
    (SignalFutureController.signal (SignalFuture.poll (⟨none, none⟩ : State Nat) 0).1 7).2 = [0] ∧
    (SignalFuture.poll (SignalFutureController.signal (SignalFuture.poll (⟨none, none⟩ : State Nat) 0).1 7).1 1).2.1
      = Poll.Ready 7 := by
  refine ⟨rfl, ?_⟩
  exact poll_then_signal_wakes_once_and_yields ⟨none, none⟩ 7 0 1 rfl

/-- C2: for every value `v`, signaling `v` on the fresh state and then
polling once returns `Ready v` immediately: the poll is not `Pending`
and registers no waker. -/
theorem signal_before_poll_ready_immediately {T : Type} (v : T) (w : Waker) :
    (SignalFuture.poll (SignalFutureController.signal (⟨none, none⟩ : State T) v).1 w).2.1
      = Poll.Ready v ∧
    (SignalFuture.poll (SignalFutureController.signal (⟨none, none⟩ : State T) v).1 w).2.1
      ≠ Poll.Pending ∧
    (SignalFuture.poll (SignalFutureController.signal (⟨none, none⟩ : State T) v).1 w).1.waker
      = none := by
  simp [SignalFuture.poll, SignalFutureController.signal]

/-- C3 (the code at the failing input): the constructor, instantiated at
the integer payload type, still returns handles over the unit-typed
shared state `State Unit` (with fresh `value = none`, `waker = none`),
because the Rust return type `(SignalFuture, SignalFutureController)`
elaborates with the default parameter `T = ()`.  Hence a controller
accepting `signal(42)` can never be obtained from `new`. -/
theorem new_at_int_is_unit_state :
    SignalFuture.new Int = (⟨none, none⟩ : State Unit) := rfl

/-- C4 counterexample: after `signal 1`, a poll that takes the value
(`Ready 1`), a late `signal 2` does change the shared state, and the
subsequent poll observes the late payload `Ready 2`. -/
theorem signal_after_take_changes_state :
    ((SignalFutureController.signal
        (SignalFuture.poll (SignalFutureController.signal (⟨none, none⟩ : State Nat) 1).1 0).1 2).1
      ≠ (SignalFuture.poll (SignalFutureController.signal (⟨none, none⟩ : State Nat) 1).1 0).1) ∧
    (SignalFuture.poll
        (SignalFutureController.signal
          (SignalFuture.poll (SignalFutureController.signal (⟨none, none⟩ : State Nat) 1).1 0).1 2).1 1).2.1
      = Poll.Ready 2 := by
  decide

/-- C4 amended: a `signal v` issued after a resolving poll on a
reachable state performs no wake (the waker slot is empty then), but it
does overwrite the payload, leaving `value = some v` so that the next
poll observes `Ready v`. -/
theorem late_signal_overwrites_without_wake {T : Type} (s : State T)
    (cx cx2 : Waker) (v0 v : T) (hr : Reachable s)
    (hready : (SignalFuture.poll s cx).2.1 = Poll.Ready v0) :
    (SignalFutureController.signal (SignalFuture.poll s cx).1 v).2 = [] ∧
    (SignalFutureController.signal (SignalFuture.poll s cx).1 v).1 = ⟨some v, none⟩ ∧
    (SignalFuture.poll (SignalFutureController.signal (SignalFuture.poll s cx).1 v).1 cx2).2.1
      = Poll.Ready v := by
  have hv : ∃ u, s.value = some u := by
    cases h : s.value with
    | none => simp [SignalFuture.poll, h] at hready
    | some u => exact ⟨u, rfl⟩
  obtain ⟨u, hu⟩ := hv
  have hw : s.waker = none := by
    rcases reachable_waker_or_value s hr with h | h
    · exact h
    · rw [h] at hu; exact absurd hu (by simp)
  simp [SignalFuture.poll, SignalFutureController.signal, hu, hw]

/-- Witness for the amended C4 at the reachable state `⟨some 5, none⟩`. -/
theorem late_signal_overwrites_without_wake_witness :
    Reachable (⟨some 5, none⟩ : State Nat) ∧
    (SignalFuture.poll (⟨some 5, none⟩ : State Nat) 0).2.1 = Poll.Ready 5 ∧
    (SignalFutureController.signal (SignalFuture.poll (⟨some 5, none⟩ : State Nat) 0).1 9).2 = [] ∧
    (SignalFutureController.signal (SignalFuture.poll (⟨some 5, none⟩ : State Nat) 0).1 9).1
      = ⟨some 9, none⟩ ∧
    (SignalFuture.poll
        (SignalFutureController.signal (SignalFuture.poll (⟨some 5, none⟩ : State Nat) 0).1 9).1 1).2.1
      = Poll.Ready 9 := by
  have hr : Reachable (⟨some 5, none⟩ : State Nat) := by
    have h0 := Reachable.signal (T := Nat) ⟨none, none⟩ 5 Reachable.init
    simpa [SignalFutureController.signal] using h0
  refine ⟨hr, rfl, ?_⟩
  exact late_signal_overwrites_without_wake ⟨some 5, none⟩ 0 1 5 9 hr rfl

/-- C5: for every pair of values, `signal v1` then `signal v2` with no
intervening poll: the second call finds the waker slot already empty,
performs no wake, and overwrites the payload to `some v2`. -/
theorem double_signal_no_second_wake {T : Type} (s : State T) (v1 v2 : T) :
    (SignalFutureController.signal s v1).1.waker = none ∧
    (SignalFutureController.signal (SignalFutureController.signal s v1).1 v2).2 = [] ∧
    (SignalFutureController.signal (SignalFutureController.signal s v1).1 v2).1.value
      = some v2 := by
  cases h : s.waker <;> simp [SignalFutureController.signal, h]

/-- C6: polling repeatedly with wakers `ws ++ [wn]` while no payload is
present and with no intervening signal: every poll in the sequence
returns `Pending`, each overwrites the previously stored waker so the
final state holds exactly `some wn`, and a single subsequent signal
wakes exactly the most recently registered waker `wn` (a wake list of
length one). -/
theorem repeated_polls_last_registration_wins {T : Type} (s : State T)
    (ws : List Waker) (wn : Waker) (v : T) (h : s.value = none) :
    (pollSeq s (ws ++ [wn])).value = none ∧
    (pollSeq s (ws ++ [wn])).waker = some wn ∧
    (SignalFutureController.signal (pollSeq s (ws ++ [wn])) v).2 = [wn] ∧
    (∀ i (hi : i < (ws ++ [wn]).length),
       (SignalFuture.poll (pollSeq s ((ws ++ [wn]).take i))
          ((ws ++ [wn]).get ⟨i, hi⟩)).2.1 = Poll.Pending) := by
  have hmid : (pollSeq s ws).value = none := pollSeq_value_none ws s h
  have hfin : pollSeq s (ws ++ [wn]) = (⟨none, some wn⟩ : State T) := by
    have hsplit : pollSeq s (ws ++ [wn]) = (SignalFuture.poll (pollSeq s ws) wn).1 := by
      simp [pollSeq, List.foldl_append]
    rw [hsplit]
    simp [SignalFuture.poll, hmid]
  refine ⟨by rw [hfin], by rw [hfin], by rw [hfin]; simp [SignalFutureController.signal], ?_⟩
  intro i hi
  have htake := pollSeq_value_none ((ws ++ [wn]).take i) s h
  simp [SignalFuture.poll, htake]

/-- Witness for C6 with polls `[0, 1]` then `2`, and `v = 3`. -/
theorem repeated_polls_last_registration_wins_witness :
    ((⟨none, none⟩ : State Nat).value = none) ∧
    (pollSeq (⟨none, none⟩ : State Nat) ([0, 1] ++ [2])).value = none ∧
    (pollSeq (⟨none, none⟩ : State Nat) ([0, 1] ++ [2])).waker = some 2 ∧
    (SignalFutureController.signal (pollSeq (⟨none, none⟩ : State Nat) ([0, 1] ++ [2])) 3).2
      = [2] := by
  have h := repeated_polls_last_registration_wins (⟨none, none⟩ : State Nat) [0, 1] 2 3 rfl
  exact ⟨rfl, h.1, h.2.1, h.2.2.1⟩

/-- C7: in every state reachable from construction by any sequence of
signal and poll operations, whenever the stored waker is `some`, the
stored payload is `none`. -/
theorem waker_some_implies_value_none {T : Type} (s : State T) (w : Waker)
    (hr : Reachable s) (hw : s.waker = some w) : s.value = none := by
  rcases reachable_waker_or_value s hr with h | h
  · rw [hw] at h
    exact absurd h (by simp)
  · exact h

/-- Witness for C7 at the reachable state `⟨none, some 0⟩`. -/
theorem waker_some_implies_value_none_witness :
    Reachable (⟨none, some 0⟩ : State Nat) ∧
    (⟨none, some 0⟩ : State Nat).waker = some 0 ∧
    (⟨none, some 0⟩ : State Nat).value = none := by
  have hr : Reachable (⟨none, some 0⟩ : State Nat) := by
    have h0 := Reachable.poll (T := Nat) ⟨none, none⟩ 0 Reachable.init
    simpa [SignalFuture.poll] using h0
  exact ⟨hr, rfl, waker_some_implies_value_none _ 0 hr rfl⟩

/-- C8 counterexample: in the micro-event trace of a `signal` call on a
state with a registered waker, the wake is not preceded by the lock
release; the mutex guard is dropped only at the end of the function
body, so the wake happens while the lock is held, refuting the claim
that the wake occurs only after the lock has been released. -/
theorem wake_not_after_release :
    ¬ wakeOnlyAfterRelease (signalEvents (⟨none, some 0⟩ : State Unit) ()) := by
  decide

/-- C8 amended: whenever a waker is registered, the `signal` trace is
exactly acquire, write of the value, take of the waker, the wake call,
and only then the release: the handle is taken under the lock and the
wake is invoked while the lock is still held, the lock being released
only when `signal` returns. -/
theorem signal_wake_under_lock {T : Type} (s : State T) (v : T) (w : Waker)
    (h : s.waker = some w) :
    signalEvents s v = [LockEvent.acquire, LockEvent.writeValue, LockEvent.takeWaker,
      LockEvent.wake w, LockEvent.release] := by
  simp [signalEvents, h]

/-- Witness for the amended C8 at the state `⟨none, some 0⟩`. -/
theorem signal_wake_under_lock_witness :
    ((⟨none, some 0⟩ : State Unit).waker = some 0) ∧
    signalEvents (⟨none, some 0⟩ : State Unit) () = [LockEvent.acquire, LockEvent.writeValue,
      LockEvent.takeWaker, LockEvent.wake 0, LockEvent.release] :=
  ⟨rfl, signal_wake_under_lock ⟨none, some 0⟩ () 0 rfl⟩

/-- C9 counterexample: in the valueless variant (`T = ()`), after
`signal ()` and a poll that observed `Ready ()`, a further poll with no
additional signal returns `Pending` (it re-suspends) — not `Ready ()`
— refuting the claim that the completion marker persists. -/
theorem unit_repoll_pending :
    (SignalFuture.poll
        (SignalFuture.poll (SignalFutureController.signal (⟨none, none⟩ : State Unit) ()).1 0).1
        1).2.1 = Poll.Pending ∧
    (SignalFuture.poll
        (SignalFuture.poll (SignalFutureController.signal (⟨none, none⟩ : State Unit) ()).1 0).1
        1).2.1 ≠ Poll.Ready () := by
  decide

/-- C9 amended: in this code's valueless variant (`T = ()`) the
completion marker is consumed by `Option::take`: after `signal ()` and
a poll that observed `Ready ()`, a further poll with no additional
signal returns `Pending` rather than observing `Ready` again. -/
theorem unit_marker_consumed (w w2 : Waker) :
    (SignalFuture.poll (SignalFutureController.signal (⟨none, none⟩ : State Unit) ()).1 w).2.1
      = Poll.Ready () ∧
    (SignalFuture.poll
        (SignalFuture.poll (SignalFutureController.signal (⟨none, none⟩ : State Unit) ()).1 w).1
        w2).2.1 = Poll.Pending := by
  simp [SignalFuture.poll, SignalFutureController.signal]

/-- C10: a poll step never wakes anyone — its wake list is empty in
every state — and in every state poll either takes the payload and
returns `Ready` (waker field untouched) or stores the caller's waker
and returns `Pending`; among the two operations only `signal` can ever
produce a non-empty wake list. -/
theorem poll_never_wakes {T : Type} (s : State T) (cx : Waker) :
    (SignalFuture.poll s cx).2.2 = [] ∧
    stepWakes s (Op.poll cx) = [] ∧
    (match s.value with
     | some v => SignalFuture.poll s cx = (⟨none, s.waker⟩, Poll.Ready v, [])
     | none => SignalFuture.poll s cx = (⟨none, some cx⟩, Poll.Pending, [])) := by
  refine ⟨?_, ?_, ?_⟩ <;> cases h : s.value <;> simp [SignalFuture.poll, stepWakes, h]

end SignalFut
